import Mathlib

/-!
Verification development for the `astrbot_plugin_parser` repository.

This file gives a shallow embedding, in Lean 4, of the link-dispatch and
parsing/media-resolution pipeline of the plugin: the data model of
`src/core/data.py` (media content variants, `ParseResult`, the resource
fingerprint), the pattern registry of `src/main.py`, and the douyin parser
state machine of `src/core/parsers/douyin/__init__.py` (cookie lifecycle,
short-link redirect handling, mirror fallback, payload-to-content mapping).

Modelling conventions:
- Python `pathlib.Path` values and `asyncio.Task` handles are modelled as
  strings (path text / task identity).  Python `float` durations are
  modelled as `Nat`; the claims under study only ever compare durations
  for equality or thread them through unchanged, never compute with them.
- Stateful methods are modelled as explicit state-passing functions.
- Fallible code returns `Except String α`, the message mirroring the
  `ParseException` message raised by the source.
- The blake2b digest of `get_resource_id` is modelled by the exact sequence
  of chunks fed to the incremental hash (`h.update` calls): the real digest
  is a deterministic function of this byte stream, so equality of streams
  entails equality of digests, which is what the fingerprint claims assert.
-/

namespace AstrbotParser

/-! ## Data model (`src/core/data.py`) -/

/-- The `Path | Task[Path]` union used for media fields in
`src/core/data.py`: either an already-resolved filesystem path or a
handle to a pending asynchronous fetch. -/
inductive PathTask where
| path (p : String)
| task (handle : String)
deriving DecidableEq

/-- The `Platform` dataclass of `src/core/data.py`. -/
structure Platform where
  name : String
  display_name : String
deriving DecidableEq

/-- The `Author` dataclass of `src/core/data.py`. -/
structure Author where
  name : String
  avatar : Option PathTask := none
  description : Option String := none
deriving DecidableEq

/-- The `MediaContent` class hierarchy of `src/core/data.py` as a tagged
union: `AudioContent`, `FileContent`, `VideoContent`, `ImageContent`,
`DynamicContent`, `GraphicsContent`.  Field names and order follow the
dataclass declarations. -/
inductive MediaContent where
| audio (path_task : PathTask) (duration : Nat)
| file (path_task : PathTask) (name : Option String)
| video (path_task : PathTask) (cover : Option PathTask) (duration : Nat)
| image (path_task : PathTask)
| dynamic (path_task : PathTask) (gif_path : Option String)
| graphics (path_task : PathTask) (text : Option String) (alt : Option String)
deriving DecidableEq

/-- The `ParseResult` dataclass of `src/core/data.py`.  The mutable
memoization field `_resource_id` is omitted: the fingerprint is modelled
as the pure function it caches. -/
inductive ParseResult where
| mk (platform : Platform) (author : Option Author) (title : Option String)
    (text : Option String) (timestamp : Option Int) (url : Option String)
    (contents : List MediaContent) (extra : List (String × String))
    (repost : Option ParseResult) (render_image : Option String)

def ParseResult.platform : ParseResult → Platform
| .mk pf _ _ _ _ _ _ _ _ _ => pf

def ParseResult.author : ParseResult → Option Author
| .mk _ au _ _ _ _ _ _ _ _ => au

def ParseResult.title : ParseResult → Option String
| .mk _ _ ti _ _ _ _ _ _ _ => ti

def ParseResult.text : ParseResult → Option String
| .mk _ _ _ tx _ _ _ _ _ _ => tx

def ParseResult.timestamp : ParseResult → Option Int
| .mk _ _ _ _ ts _ _ _ _ _ => ts

def ParseResult.url : ParseResult → Option String
| .mk _ _ _ _ _ u _ _ _ _ => u

def ParseResult.contents : ParseResult → List MediaContent
| .mk _ _ _ _ _ _ cs _ _ _ => cs

def ParseResult.repost : ParseResult → Option ParseResult
| .mk _ _ _ _ _ _ _ _ rp _ => rp

/-! ## Content fingerprint (`ParseResult.get_resource_id`) -/

/-- One `h.update` call of `get_resource_id`: a stringified value, the
delimiter byte `b"|"`, or the hex digest of a nested repost fingerprint
(fed as a single value chunk). -/
inductive Chunk where
| str (s : String)
| delim
| digest (sub : List Chunk)

/-- The inner `add` helper of `get_resource_id` (src/core/data.py lines
259-262): if the value is not `None` its string form is hashed, and the
delimiter byte is hashed in every case. -/
def addChunk : Option String → List Chunk
| some s => [Chunk.str s, Chunk.delim]
| none => [Chunk.delim]

/-- Python class name of a content variant, as fed to the hash by
`add(cont.__class__.__name__)`. -/
def MediaContent.className : MediaContent → String
| .audio .. => "AudioContent"
| .file .. => "FileContent"
| .video .. => "VideoContent"
| .image .. => "ImageContent"
| .dynamic .. => "DynamicContent"
| .graphics .. => "GraphicsContent"

/-- Chunks contributed by one content item inside the loop of
`get_resource_id` (src/core/data.py lines 272-284): the class name, then
the variant's O(1) scalar attributes per the isinstance chain. -/
def contentChunks (c : MediaContent) : List Chunk :=
  addChunk (some c.className) ++
    match c with
    | .video _ _ duration => addChunk (some (toString duration))
    | .audio _ duration => addChunk (some (toString duration))
    | .file _ name => addChunk name
    | .graphics _ text alt => addChunk text ++ addChunk alt
    | .image _ => []
    | .dynamic _ _ => []

/-- The sequence of chunks `get_resource_id` feeds to the incremental
blake2b hash (src/core/data.py lines 257-291), in source order: platform
name, url, timestamp, the author name only when an author is present, the
content count, each content's chunks, and — only when a repost is present —
the repost's own digest.  The returned digest is a deterministic function
of exactly this stream, so two results with equal streams have equal
digests. -/
def hashInput : ParseResult → List Chunk
| .mk pf au _ _ ts url cs _ rp _ =>
  addChunk (some pf.name) ++
  addChunk url ++
  addChunk (ts.map toString) ++
  (match au with
   | some a => addChunk (some a.name)
   | none => []) ++
  addChunk (some (toString cs.length)) ++
  (cs.flatMap contentChunks) ++
  (match rp with
   | some r => [Chunk.digest (hashInput r), Chunk.delim]
   | none => [])

/-- The resource fingerprint, modelled as the hash input stream (see
module comment: the real 8-byte blake2b digest is a deterministic function
of this stream). -/
def get_resource_id (r : ParseResult) : List Chunk := hashInput r

/-- The O(1) scalar shape of one content item as seen by the fingerprint:
its variant tag plus the scalar attributes `get_resource_id` hashes
(duration for video/audio, name for file, text and alt for graphics);
never the path, cover or resolution state. -/
inductive ContentShape where
| audio (duration : Nat)
| file (name : Option String)
| video (duration : Nat)
| image
| dynamic
| graphics (text : Option String) (alt : Option String)
deriving DecidableEq

def MediaContent.shape : MediaContent → ContentShape
| .audio _ d => .audio d
| .file _ n => .file n
| .video _ _ d => .video d
| .image _ => .image
| .dynamic _ _ => .dynamic
| .graphics _ t a => .graphics t a

/-- The structural projection of a `ParseResult` that the fingerprint
depends on: platform name, url, timestamp, author name, the content shape
list, and the repost chain's shape. -/
inductive ResultShape where
| mk (platformName : String) (url : Option String) (timestamp : Option Int)
    (authorName : Option String) (contents : List ContentShape)
    (repost : Option ResultShape)

def shapeOf : ParseResult → ResultShape
| .mk pf au _ _ ts url cs _ rp _ =>
  .mk pf.name url ts (au.map Author.name) (cs.map MediaContent.shape)
    (match rp with
     | some r => some (shapeOf r)
     | none => none)

/-- Chunks of one content item, determined by its shape alone. -/
def shapeContentChunks : ContentShape → List Chunk
| .audio d => addChunk (some "AudioContent") ++ addChunk (some (toString d))
| .file n => addChunk (some "FileContent") ++ addChunk n
| .video d => addChunk (some "VideoContent") ++ addChunk (some (toString d))
| .image => addChunk (some "ImageContent")
| .dynamic => addChunk (some "DynamicContent")
| .graphics t a =>
    addChunk (some "GraphicsContent") ++ addChunk t ++ addChunk a

/-- The hash input stream determined by a `ResultShape` alone. -/
def shapeHash : ResultShape → List Chunk
| .mk pn url ts an cs rp =>
  addChunk (some pn) ++
  addChunk url ++
  addChunk (ts.map toString) ++
  (match an with
   | some n => addChunk (some n)
   | none => []) ++
  addChunk (some (toString cs.length)) ++
  (cs.flatMap shapeContentChunks) ++
  (match rp with
   | some s => [Chunk.digest (shapeHash s), Chunk.delim]
   | none => [])

/-- The hash input stream as C3 reads the code: identical to `hashInput`
except that — following the claim's words — the author-name field is fed
(with its delimiter) even when the author is `None`, and likewise the
repost field when the repost is `None`. -/
def claimedHashInput : ParseResult → List Chunk
| .mk pf au _ _ ts url cs _ rp _ =>
  addChunk (some pf.name) ++
  addChunk url ++
  addChunk (ts.map toString) ++
  addChunk (au.map Author.name) ++
  addChunk (some (toString cs.length)) ++
  (cs.flatMap contentChunks) ++
  (match rp with
   | some r => [Chunk.digest (claimedHashInput r), Chunk.delim]
   | none => addChunk none)

/-- Number of delimiter bytes in a chunk stream (top level only: a nested
repost digest is a single opaque hex value to the outer hash). -/
def countDelims : List Chunk → Nat
| [] => 0
| Chunk.delim :: rest => countDelims rest + 1
| _ :: rest => countDelims rest

/-- Every value chunk (stringified field or nested digest) is immediately
followed by a delimiter chunk. -/
def wellDelimited : List Chunk → Bool
| [] => true
| Chunk.delim :: rest => wellDelimited rest
| Chunk.str _ :: Chunk.delim :: rest => wellDelimited rest
| Chunk.digest _ :: Chunk.delim :: rest => wellDelimited rest
| _ => false

/-- Number of fields `get_resource_id` feeds for one content item: the
class name plus the variant's hashed scalars. -/
def contentFieldCount : MediaContent → Nat
| .video .. => 2
| .audio .. => 2
| .file .. => 2
| .graphics .. => 3
| .image .. => 1
| .dynamic .. => 1

/-- Number of fields `get_resource_id` actually feeds for a whole result:
platform, url, timestamp and content count always; the author-name field
only when an author is present; each content's fields; the repost digest
only when a repost is present. -/
def hashedFieldCount : ParseResult → Nat
| .mk _ au _ _ _ _ cs _ rp _ =>
  4 + (if au.isSome then 1 else 0) +
  (cs.map contentFieldCount).sum +
  (if rp.isSome then 1 else 0)

/-! ## Typed content accessors (`ParseResult.video_contents` etc.) -/

def isVideoContent : MediaContent → Bool
| .video .. => true
| _ => false

def isImageContent : MediaContent → Bool
| .image .. => true
| _ => false

def isAudioContent : MediaContent → Bool
| .audio .. => true
| _ => false

def isFileContent : MediaContent → Bool
| .file .. => true
| _ => false

def isDynamicContent : MediaContent → Bool
| .dynamic .. => true
| _ => false

def isGraphicsContent : MediaContent → Bool
| .graphics .. => true
| _ => false

/-- The `ParseResult.video_contents` (src/core/data.py lines 194-196): the list
comprehension `[cont for cont in self.contents if isinstance(cont, VideoContent)]`. -/
def video_contents (r : ParseResult) : List MediaContent :=
  r.contents.filter isVideoContent

/-- The `ParseResult.img_contents` (src/core/data.py lines 198-200). -/
def img_contents (r : ParseResult) : List MediaContent :=
  r.contents.filter isImageContent

/-- The `ParseResult.audio_contents` (src/core/data.py lines 202-204). -/
def audio_contents (r : ParseResult) : List MediaContent :=
  r.contents.filter isAudioContent

/-- The `ParseResult.file_contents` (src/core/data.py lines 206-208). -/
def file_contents (r : ParseResult) : List MediaContent :=
  r.contents.filter isFileContent

/-- The `ParseResult.dynamic_contents` (src/core/data.py lines 210-212). -/
def dynamic_contents (r : ParseResult) : List MediaContent :=
  r.contents.filter isDynamicContent

/-- The `ParseResult.graphics_contents` (src/core/data.py lines 214-216). -/
def graphics_contents (r : ParseResult) : List MediaContent :=
  r.contents.filter isGraphicsContent

/-! ## Cookie lifecycle (`DouyinParser`, src/core/parsers/douyin/__init__.py) -/

/-- Python `str.strip()` over the model's strings (ASCII whitespace;
Python additionally strips some Unicode whitespace, which no claim
exercises). -/
def pyStrip (s : String) : String :=
  ⟨(((s.data.dropWhile Char.isWhitespace).reverse.dropWhile
      Char.isWhitespace).reverse)⟩

/-- Python `"=" in s`. -/
def hasEqSign (s : String) : Bool :=
  s.data.contains '='

/-- Python `s.split(sep)` for a one-character separator: split on every
occurrence, keeping empty pieces (so the empty string yields one empty
piece). -/
def splitChar (sep : Char) : List Char → List (List Char)
| [] => [[]]
| c :: cs =>
  if c = sep then [] :: splitChar sep cs
  else
    match splitChar sep cs with
    | [] => [[c]]
    | h :: t => (c :: h) :: t

def pySplitOn (s : String) (sep : Char) : List String :=
  (splitChar sep s.data).map (fun l => ⟨l⟩)

/-- The text before and after the first occurrence of the separator, when
it occurs. -/
def splitOnceChar (sep : Char) : List Char → Option (List Char × List Char)
| [] => none
| c :: cs =>
  if c = sep then some ([], cs)
  else
    match splitOnceChar sep cs with
    | some (a, b) => some (c :: a, b)
    | none => none

/-- Python `s.split("=", 1)`: the pair (text before the first `=`, text
after it), provided an `=` occurs. -/
def splitOnceEq (s : String) : Option (String × String) :=
  (splitOnceChar '=' s.data).map (fun p => (⟨p.1⟩, ⟨p.2⟩))

/-- Python dict insertion `d[k] = v`: overwrite in place when the key is
present (preserving insertion order), append otherwise. -/
def dictUpsert (d : List (String × String)) (k v : String) :
    List (String × String) :=
  if d.any (fun p => p.1 = k) then
    d.map (fun p => if p.1 = k then (p.1, v) else p)
  else d ++ [(k, v)]

/-- One iteration of the existing-cookie loop of
`_update_cookies_from_response` (lines 76-80): strip the fragment, keep it
only when non-empty and containing `=`, split once on `=`, strip name and
value, insert into the dict. -/
def addCookieFragment (d : List (String × String)) (frag : String) :
    List (String × String) :=
  let c := pyStrip frag
  if c ≠ "" ∧ hasEqSign c then
    match splitOnceEq c with
    | some (n, v) => dictUpsert d (pyStrip n) (pyStrip v)
    | none => d
  else d

/-- The existing-cookie dict built from `self.douyin_ck.split(";")`
(lines 74-80); an empty `douyin_ck` contributes nothing because the
`if self.douyin_ck:` guard skips the loop. -/
def parseExistingCookies (ck : String) : List (String × String) :=
  if ck = "" then []
  else (pySplitOn ck ';').foldl addCookieFragment []

/-- One iteration of the Set-Cookie loop (lines 83-87): the directive's
first `;`-separated segment, stripped, then the same keep/split/insert
treatment as existing fragments. -/
def addSetCookieHeader (d : List (String × String)) (sc : String) :
    List (String × String) :=
  addCookieFragment d ((pySplitOn sc ';').headD "")

/-- The merged name-to-value dict: existing cookies first, then every
Set-Cookie directive upserted in order (same name overwrites, others
preserved). -/
def mergeCookiePairs (ck : String) (hs : List String) :
    List (String × String) :=
  hs.foldl addSetCookieHeader (parseExistingCookies ck)

/-- The `new_cookies = "; ".join(f"k=v" ...)` (line 90). -/
def mergeCookieString (ck : String) (hs : List String) : String :=
  String.intercalate "; "
    ((mergeCookiePairs ck hs).map (fun p => p.1 ++ "=" ++ p.2))

/-- Mutable state of a `DouyinParser` instance as far as the cookie
lifecycle is concerned: the cookie string, the `Cookie` entry of the two
header profiles, and the log of strings persisted to the cookie file. -/
structure DouyinState where
  douyin_ck : String
  ios_cookie : Option String
  android_cookie : Option String
  saved : List String
deriving DecidableEq

/-- The `DouyinParser._clean_cookie` (lines 35-37): `.replace("\n", "")`
and `.replace("\r", "")` remove every occurrence of the character, then
`.strip()`. -/
def clean_cookie (cookie : String) : String :=
  pyStrip ⟨cookie.data.filter (fun c => c ≠ '\n' ∧ c ≠ '\r')⟩

/-- The `DouyinParser._set_cookies` (lines 39-44): clean, and only when the
cleaned string is non-empty, store it into both header profiles. -/
def set_cookies (s : DouyinState) (cookies : String) : DouyinState :=
  let c := clean_cookie cookies
  if c ≠ "" then
    { s with ios_cookie := some c, android_cookie := some c }
  else s

/-- The `DouyinParser._update_cookies_from_response` (lines 68-95) as a state
transformer: merge the Set-Cookie directives into the current cookie
string; when the merged string differs, replace `douyin_ck`, apply it to
the headers via `_set_cookies`, and persist it (`_save_cookies` modelled
as appending to the `saved` log). -/
def update_cookies_from_response (s : DouyinState) (hs : List String) :
    DouyinState :=
  if hs = [] then s
  else
    let new_cookies := mergeCookieString s.douyin_ck hs
    if new_cookies ≠ s.douyin_ck then
      let s1 := set_cookies { s with douyin_ck := new_cookies } new_cookies
      { s1 with saved := s1.saved ++ [new_cookies] }
    else s

/-- First-match association lookup (the value a Python dict would report
for a key, since the merged dict never holds duplicate names). -/
def findVal : List (String × String) → String → Option String
| [], _ => none
| p :: ps, k => if p.1 = k then some p.2 else findVal ps k

/-- The value of the last pair of the list carrying the given name, if
any: the value the claim says must win for that name. -/
def lastParsedVal : List (String × String) → String → Option String
| [], _ => none
| p :: ps, k =>
  match lastParsedVal ps k with
  | some v => some v
  | none => if p.1 = k then some p.2 else none

/-- The (name, value) pairs of the Set-Cookie directives in order,
without deduplication: the parse of each directive's first segment. -/
def headerPairs (hs : List String) : List (String × String) :=
  hs.flatMap (fun sc =>
    let c := pyStrip ((pySplitOn sc ';').headD "")
    if c ≠ "" ∧ hasEqSign c then
      match splitOnceEq c with
      | some (n, v) => [(pyStrip n, pyStrip v)]
      | none => []
    else [])

/-! ## Pattern registry (`src/main.py`) -/

/-- Python `needle in haystack` on characters: some contiguous run of
`hay` equals `needle` (true for the empty needle). -/
def isSubAt : List Char → List Char → Bool
| [], _ => true
| _ :: _, [] => false
| n :: ns, h :: hs => (n = h && isSubAt ns hs)

def hasSubList (needle : List Char) : List Char → Bool
| [] => needle.isEmpty
| h :: hs => isSubAt needle (h :: hs) || hasSubList needle hs

/-- Python `keyword in text`. -/
def kwInText (kw text : String) : Bool :=
  hasSubList kw.data text.data

/-- A compiled regex, modelled by its `search` behaviour: the leftmost
match of the pattern in the text (`group(0)`), if any.  The concrete
douyin patterns below are translated from the regex literals of
src/core/parsers/douyin/__init__.py. -/
structure Pattern where
  search : String → Option String

/-- Try to match a literal at the head of the character list, returning
the number of characters consumed. -/
def litAt (lit : List Char) (s : List Char) : Option Nat :=
  if isSubAt lit s then some lit.length else none

/-- Greedy `cls+` at the head of the list: the length of the maximal run,
provided it is non-empty. -/
def plusAt (cls : Char → Bool) (s : List Char) : Option Nat :=
  let run := s.takeWhile cls
  if run.isEmpty then none else some run.length

/-- Character class `[a-zA-Z0-9_\-]` of the short-link patterns. -/
def linkChar (c : Char) : Bool :=
  c.isAlpha || c.isDigit || c = '_' || c = '-'

/-- Sequence two head-matchers. -/
def seqAt (m1 m2 : List Char → Option Nat) (s : List Char) : Option Nat :=
  match m1 s with
  | some n =>
    match m2 (s.drop n) with
    | some k => some (n + k)
    | none => none
  | none => none

/-- Alternation of two head-matchers (first alternative preferred, as in
Python's regex alternation). -/
def altAt (m1 m2 : List Char → Option Nat) (s : List Char) : Option Nat :=
  match m1 s with
  | some n => some n
  | none => m2 s

/-- The `re.search` built from a head-matcher: try each start position from
the left, returning the matched substring of the first that succeeds. -/
def searchList (m : List Char → Option Nat) : List Char → Option (List Char)
| [] =>
  match m [] with
  | some _ => some []
  | none => none
| c :: cs =>
  match m (c :: cs) with
  | some n => some ((c :: cs).take n)
  | none => searchList m cs

def mkSearch (m : List Char → Option Nat) : Pattern :=
  ⟨fun text => (searchList m text.data).map fun cs => ⟨cs⟩⟩

/-- The `v\.douyin\.com/[a-zA-Z0-9_\-]+` (line 97). -/
def vDouyinAt : List Char → Option Nat :=
  seqAt (litAt "v.douyin.com/".data) (plusAt linkChar)

/-- The `jx\.douyin\.com/[a-zA-Z0-9_\-]+` (line 98). -/
def jxDouyinAt : List Char → Option Nat :=
  seqAt (litAt "jx.douyin.com/".data) (plusAt linkChar)

/-- The `douyin\.com/(?P<ty>video|note)/(?P<vid>\d+)` (line 105). -/
def douyinCanonicalAt : List Char → Option Nat :=
  seqAt (litAt "douyin.com/".data)
    (seqAt (altAt (litAt "video".data) (litAt "note".data))
      (seqAt (litAt "/".data) (plusAt Char.isDigit)))

/-- The `slides|video|note` alternation of the share-style patterns. -/
def tyAltAt : List Char → Option Nat :=
  altAt (litAt "slides".data) (altAt (litAt "video".data) (litAt "note".data))

/-- The `iesdouyin\.com/share/(?P<ty>slides|video|note)/(?P<vid>\d+)` (line 106). -/
def iesdouyinAt : List Char → Option Nat :=
  seqAt (litAt "iesdouyin.com/share/".data)
    (seqAt tyAltAt (seqAt (litAt "/".data) (plusAt Char.isDigit)))

/-- The `m\.douyin\.com/share/(?P<ty>slides|video|note)/(?P<vid>\d+)` (line 107). -/
def mDouyinAt : List Char → Option Nat :=
  seqAt (litAt "m.douyin.com/share/".data)
    (seqAt tyAltAt (seqAt (litAt "/".data) (plusAt Char.isDigit)))

/-- Any single character: the unescaped `.` of the jingxuan pattern. -/
def anyCharAt : List Char → Option Nat
| [] => none
| _ :: _ => some 1

/-- The `jingxuan\.douyin.com/m/(?P<ty>slides|video|note)/(?P<vid>\d+)`
(lines 109-112; note the dot between `douyin` and `com` is unescaped in
the source and therefore matches any character). -/
def jingxuanAt : List Char → Option Nat :=
  seqAt (litAt "jingxuan.douyin".data)
    (seqAt anyCharAt
      (seqAt (litAt "com/m/".data)
        (seqAt tyAltAt (seqAt (litAt "/".data) (plusAt Char.isDigit)))))

/-- The `(keyword, pattern)` bindings declared by the `@handle` decorators
of `DouyinParser`, in source-text order (the decorator registration order
inside the class is irrelevant to the claims: the registry is re-sorted by
keyword length, and the only length ties — `jx.douyin`/`iesdouyin` and
`v.douyin`/`m.douyin` — never both pass the substring check on the texts
the claims examine). -/
def douyinKeyPatterns : List (String × Pattern) :=
  [("v.douyin", mkSearch vDouyinAt),
   ("jx.douyin", mkSearch jxDouyinAt),
   ("douyin", mkSearch douyinCanonicalAt),
   ("iesdouyin", mkSearch iesdouyinAt),
   ("m.douyin", mkSearch mDouyinAt),
   ("jingxuan.douyin", mkSearch jingxuanAt)]

/-- Stable insertion preserving descending keyword length: the new
element (earlier in the original list) stays ahead of equal lengths, as
Python's stable `list.sort(key=lambda x: -len(x[0]))` guarantees. -/
def insertByKwLen (x : String × Pattern) :
    List (String × Pattern) → List (String × Pattern)
| [] => [x]
| y :: ys =>
  if x.1.length < y.1.length then y :: insertByKwLen x ys
  else x :: y :: ys

/-- The sort of `ParserPlugin._register_parser` (src/main.py line 113):
`patterns.sort(key=lambda x: -len(x[0]))`, a stable descending sort by
keyword length, applied to the collected bindings. -/
def buildKeyPatternList (bindings : List (String × Pattern)) :
    List (String × Pattern) :=
  bindings.foldr insertByKwLen []

/-- The match loop of `ParserPlugin.on_message` (src/main.py lines
155-164): scan the ordered list; skip entries whose keyword is not a
substring of the text; on the first entry whose regex search also
succeeds, stop with that keyword and match; report no-match when the scan
exhausts the list. -/
def matchText : List (String × Pattern) → String → Option (String × String)
| [], _ => none
| (kw, pat) :: rest, text =>
  if kwInText kw text then
    match pat.search text with
    | some m => some (kw, m)
    | none => matchText rest text
  else matchText rest text

/-- An entry passes for a text when its keyword is a substring and its
regex search succeeds. -/
def entryPasses (text : String) (e : String × Pattern) : Prop :=
  kwInText e.1 text = true ∧ (e.2.search text).isSome = true

instance (text : String) (e : String × Pattern) :
    Decidable (entryPasses text e) :=
  decidable_of_iff
    (kwInText e.1 text = true ∧ (e.2.search text).isSome = true) Iff.rfl

/-- The registry the plugin builds with only the douyin platform enabled. -/
def douyinRegistry : List (String × Pattern) :=
  buildKeyPatternList douyinKeyPatterns

/-! ## Short-link redirect handling (`DouyinParser.parse_with_redirect`) -/

/-- The parts of an HTTP response that `parse_with_redirect` inspects. -/
structure HttpResponse where
  status : Nat
  location : Option String
  set_cookie : List String

/-- The redirect-class statuses checked at line 154. -/
def redirectStatuses : List Nat := [301, 302, 303, 307, 308]

/-- Outcome of `parse_with_redirect`: either the `ParseException` raise
(`UnresolvedRedirect` in the spec's taxonomy) or a recursive dispatch to
the handler selected by re-running the registry match on the target URL. -/
inductive RedirectOutcome where
| failed (msg : String)
| dispatched (keyword : String) (matched : String)
deriving DecidableEq

/-- The `DouyinParser.parse_with_redirect` (lines 137-161): update cookies
from the response, take the `Location` header as redirect target only for
a redirect-class status (defaulting to the requested URL), fail when the
target equals the requested URL, otherwise re-run the registry match on
the target and dispatch to the matching handler.

Modelled from the spec: `BaseParser.search_url` (src/core/parsers/base.py
is not in the sources) re-runs the Pattern Registry match against the
target URL; its no-match behaviour is modelled as a parse failure, which
no claim under study exercises. -/
def parse_with_redirect (registry : List (String × Pattern))
    (s : DouyinState) (url : String) (resp : HttpResponse) :
    DouyinState × RedirectOutcome :=
  let s1 := if resp.set_cookie ≠ [] then
      update_cookies_from_response s resp.set_cookie
    else s
  let redirect_url := if resp.status ∈ redirectStatuses then
      resp.location.getD url
    else url
  if redirect_url = url then
    (s1, .failed ("无法重定向 URL: " ++ url))
  else
    match matchText registry redirect_url with
    | some (kw, m) => (s1, .dispatched kw m)
    | none => (s1, .failed "no registry entry matches the redirect target")

/-! ## Mirror fallback (`DouyinParser._parse_douyin`) -/

/-- The `DouyinParser._build_iesdouyin_url` (lines 129-131). -/
def build_iesdouyin_url (ty vid : String) : String :=
  "https://www.iesdouyin.com/share/" ++ ty ++ "/" ++ vid

/-- The `DouyinParser._build_m_douyin_url` (lines 133-135). -/
def build_m_douyin_url (ty vid : String) : String :=
  "https://m.douyin.com/share/" ++ ty ++ "/" ++ vid

/-- The message of the `ParseException` raised when every mirror fails
(line 127). -/
def mirrorsExhaustedMsg : String := "分享已删除或资源直链提取失败, 请稍后再试"

/-- The try/except loop of `_parse_douyin` (lines 118-127): attempt
`parse_video` on each endpoint in order; a `ParseException` moves to the
next endpoint; exhausting the list raises the upstream-unavailable
`ParseException`.  The network behaviour of `parse_video` at each URL is
the environment `fetch`. -/
def tryMirrors (fetch : String → Except String ParseResult) :
    List String → Except String ParseResult
| [] => .error mirrorsExhaustedMsg
| u :: rest =>
  match fetch u with
  | .ok r => .ok r
  | .error _ => tryMirrors fetch rest

/-- The `DouyinParser._parse_douyin` (lines 113-127): slides are delegated to
`parse_slides` (environment `slidesResult`); canonical video/note links
try the m.douyin endpoint then the iesdouyin endpoint. -/
def parse_douyin (ty vid : String)
    (fetch : String → Except String ParseResult)
    (slidesResult : Except String ParseResult) :
    Except String ParseResult :=
  if ty = "slides" then slidesResult
  else tryMirrors fetch
    [build_m_douyin_url ty vid, build_iesdouyin_url ty vid]

/-! ## Payload-to-content mapping (`DouyinParser.parse_video`) -/

/-- Modelled from the spec: the decoded `video_data` payload of the
missing `src/core/parsers/douyin/video.py` module, with exactly the
fields `parse_video` reads (lines 188-208).  A payload with no image set
is modelled by the empty list (Python truthiness conflates `None` and
`[]`), and a missing video URL by `none`; Python also treats an empty
video-url string as falsy, which the model reproduces. -/
structure VideoData where
  image_urls : List String
  video_url : Option String
  cover_url : Option String
  duration : Option Nat
  author_nickname : String
  avatar_url : Option String
deriving DecidableEq

/-- Modelled from the spec: `BaseParser.create_image_contents`
(src/core/parsers/base.py is not in the sources) maps each image URL to
exactly one image content entry, in source order, wrapping a pending
lazy fetch of that URL. -/
def create_image_contents (urls : List String) : List MediaContent :=
  urls.map (fun u => MediaContent.image (PathTask.task u))

/-- Modelled from the spec: `BaseParser.create_video_content`
(src/core/parsers/base.py is not in the sources) builds one video content
entry with a pending lazy fetch of the video URL, a lazy cover reference
when a cover URL is supplied, and the numeric duration. -/
def create_video_content (video_url : String) (cover_url : Option String)
    (duration : Nat) : MediaContent :=
  MediaContent.video (PathTask.task video_url)
    (cover_url.map PathTask.task) duration

/-- Python truthiness of the walrus test `elif video_url :=
video_data.video_url:`: present and non-empty. -/
def truthyStr : Option String → Bool
| some s => s ≠ ""
| none => false

/-- The content-construction branch of `DouyinParser.parse_video` (lines
188-198): a non-empty image-url set yields one image content per URL and
nothing else (a simultaneously present video URL is never consulted);
otherwise a truthy video URL yields one video content with the payload's
cover and duration (`video_data.video.duration if video_data.video else
0`); otherwise the content list is empty. -/
def parse_video_contents (d : VideoData) : List MediaContent :=
  if d.image_urls ≠ [] then create_image_contents d.image_urls
  else if truthyStr d.video_url then
    [create_video_content (d.video_url.getD "") d.cover_url
      (d.duration.getD 0)]
  else []

/-! ## Resolvable media reference (`MediaContent.get_path`,
`VideoContent.get_cover_path`) -/

/-- The `MediaContent.get_path` (src/core/data.py lines 20-24) as a state
transition on the `path_task` field.  The environment `resolve` gives the
path the backing task produces on successful completion.  The returned
triple is (value returned, field after the call, whether the call
suspended on the task). -/
def get_path (pt : PathTask) (resolve : String → String) :
    String × PathTask × Bool :=
  match pt with
  | .path p => (p, .path p, false)
  | .task h => (resolve h, .path (resolve h), true)

/-- The `VideoContent.get_cover_path` (src/core/data.py lines 55-61): `None`
covers stay `None` without suspension; otherwise the same
resolve-and-memoize step as `get_path`, on the `cover` field. -/
def get_cover_path (cover : Option PathTask) (resolve : String → String) :
    Option String × Option PathTask × Bool :=
  match cover with
  | none => (none, none, false)
  | some (.path p) => (some p, some (.path p), false)
  | some (.task h) => (some (resolve h), some (.path (resolve h)), true)

/-! ## Concrete sample values used by witnesses and counterexamples -/

/-- A minimal result: no author, no repost, no contents. -/
def sampleBare : ParseResult :=
  .mk ⟨"p", "P"⟩ none none none none none [] [] none none

/-- A quoted post used as repost of the pending sample (media pending). -/
def sampleRepostPending : ParseResult :=
  .mk ⟨"weibo", "微博"⟩ none none none (some 99) (some "https://orig")
    [.image (.task "repost-img-fetch")] [] none none

/-- The same quoted post with its media resolved. -/
def sampleRepostResolved : ParseResult :=
  .mk ⟨"weibo", "微博"⟩ none (some "quoted") none (some 99)
    (some "https://orig") [.image (.path "/cache/ri.jpg")] [] none none

/-- A post whose media references are all still pending tasks. -/
def samplePendingPost : ParseResult :=
  .mk ⟨"douyin", "抖音"⟩
    (some ⟨"alice", some (.task "avatar-fetch"), none⟩)
    (some "title-a") none (some 1700000000) (some "https://v.douyin.com/x")
    [.video (.task "video-fetch") (some (.task "cover-fetch")) 12,
     .graphics (.task "graphics-fetch") (some "txt") none]
    [] (some sampleRepostPending) none

/-- The same logical post after every media reference resolved (and with
unhashed fields such as title, text, extra and avatar state changed). -/
def sampleResolvedPost : ParseResult :=
  .mk ⟨"douyin", "抖音"⟩
    (some ⟨"alice", some (.path "/cache/avatar.jpg"), some "bio"⟩)
    (some "title-b") (some "body") (some 1700000000)
    (some "https://v.douyin.com/x")
    [.video (.path "/cache/v.mp4") (some (.path "/cache/c.jpg")) 12,
     .graphics (.path "/cache/g.jpg") (some "txt") none]
    [("info", "extra")] (some sampleRepostResolved) (some "/cache/r.png")

/-- Left-biased choice on optional values (the value a merge reports:
the overriding side when present, the fallback otherwise). -/
def orZ : Option String → Option String → Option String
| some v, _ => some v
| none, o => o

/-- A cookie fragment the merge drops: empty after stripping, or without
an `=` sign. -/
def badFragment (f : String) : Prop :=
  pyStrip f = "" ∨ hasEqSign (pyStrip f) = false

/-- A Set-Cookie directive the merge drops: its first `;`-separated
segment is a bad fragment. -/
def badDirective (sc : String) : Prop :=
  badFragment ((pySplitOn sc ';').headD "")

/-- A parser state with no cookies at all. -/
def emptyDouyinState : DouyinState := ⟨"", none, none, []⟩

/-- A parser state whose cookie string has no `=` sign. -/
def garbageCookieState : DouyinState := ⟨"abc", none, none, []⟩

/-- A response that redirects to the requested URL itself. -/
def selfRedirectResp : HttpResponse :=
  ⟨302, some "https://v.douyin.com/abc", []⟩

/-- A response that redirects to a canonical iesdouyin share URL. -/
def goodRedirectResp : HttpResponse :=
  ⟨302, some "https://www.iesdouyin.com/share/video/123", []⟩

/-- A decoded payload carrying both an image set and a video URL. -/
def payloadWithImagesAndVideo : VideoData :=
  ⟨["u1", "u2"], some "vid-url", some "cover-url", some 30, "bob", none⟩

/-- A decoded payload carrying a video URL and no images. -/
def payloadWithVideoOnly : VideoData :=
  ⟨[], some "vid-url", some "cover-url", some 30, "bob", none⟩

/-- A network environment where the m.douyin mirror fails recoverably and
the iesdouyin mirror succeeds. -/
def secondMirrorFetch : String → Except String ParseResult :=
  fun u =>
    if u = build_iesdouyin_url "video" "1" then .ok sampleBare
    else .error "status: 404"

/-- Message text containing a jx.douyin short link (and the substring
`douyin` of the shorter keyword). -/
def jxDemoText : String := "check this https://jx.douyin.com/abc123"

end AstrbotParser

namespace AstrbotParser

/-! # Theorems -/

/-- Induction over `ParseResult` along the repost chain. -/
theorem ParseResult.indRepost {motive : ParseResult → Prop}
    (h : ∀ pf au ti tx ts url cs ex rp ri,
      (∀ r', rp = some r' → motive r') →
      motive (ParseResult.mk pf au ti tx ts url cs ex rp ri)) :
    ∀ r, motive r
| ParseResult.mk pf au ti tx ts url cs ex rp ri =>
  h pf au ti tx ts url cs ex rp ri (fun r' _ => ParseResult.indRepost h r')

theorem shapeContentChunks_shape (c : MediaContent) :
    shapeContentChunks c.shape = contentChunks c := by
  cases c <;> rfl

theorem flatMap_shapeContentChunks (cs : List MediaContent) :
    (cs.map MediaContent.shape).flatMap shapeContentChunks =
      cs.flatMap contentChunks := by
  induction cs with
  | nil => rfl
  | cons c cs ih =>
    simp only [List.map_cons, List.flatMap_cons, ih,
      shapeContentChunks_shape]

/-- The fingerprint's hash input is fully determined by the structural
shape of the result. -/
theorem hashInput_eq_shapeHash :
    ∀ r : ParseResult, hashInput r = shapeHash (shapeOf r) := by
  refine ParseResult.indRepost ?_
  intro pf au ti tx ts url cs ex rp ri ih
  have hc := flatMap_shapeContentChunks cs
  cases rp with
  | none =>
    cases au <;> simp [hashInput, shapeOf, shapeHash, hc]
  | some r =>
    have hr := ih r rfl
    cases au <;> simp [hashInput, shapeOf, shapeHash, hc, hr]

/-- C1: the resource fingerprint is invariant to media-resolution state:
any two `ParseResult`s that agree on platform name, url, timestamp,
author name, the sequence of content variant tags with their hashed
scalar attributes, and the repost chain (i.e. that have the same
`shapeOf` projection) get the same `get_resource_id` stream — hence the
same blake2b digest — regardless of whether each `path_task`, cover or
avatar is a resolved path or a pending task, and regardless of the
actual path values. -/
theorem claim_C1_fingerprint_resolution_invariant
    (r1 r2 : ParseResult) (h : shapeOf r1 = shapeOf r2) :
    get_resource_id r1 = get_resource_id r2 := by
  simp only [get_resource_id, hashInput_eq_shapeHash, h]

/-- Witness for C1: a concrete post with all media pending and the same
post with all media resolved (and unhashed fields altered) have equal
shape and equal fingerprints. -/
theorem claim_C1_witness :
    shapeOf samplePendingPost = shapeOf sampleResolvedPost ∧
    get_resource_id samplePendingPost = get_resource_id sampleResolvedPost :=
  ⟨rfl, claim_C1_fingerprint_resolution_invariant
    samplePendingPost sampleResolvedPost rfl⟩

theorem countDelims_append (a b : List Chunk) :
    countDelims (a ++ b) = countDelims a + countDelims b := by
  induction a with
  | nil => simp [countDelims]
  | cons c a ih =>
    cases c
    all_goals simp [countDelims, ih]
    all_goals omega

theorem countDelims_addChunk (v : Option String) :
    countDelims (addChunk v) = 1 := by
  cases v <;> rfl

theorem countDelims_contentChunks (c : MediaContent) :
    countDelims (contentChunks c) = contentFieldCount c := by
  cases c <;> simp [contentChunks, contentFieldCount, countDelims_append,
    countDelims_addChunk]

theorem countDelims_flatMap (cs : List MediaContent) :
    countDelims (cs.flatMap contentChunks) =
      (cs.map contentFieldCount).sum := by
  induction cs with
  | nil => rfl
  | cons c cs ih =>
    simp [List.flatMap_cons, countDelims_append, countDelims_contentChunks,
      ih]

theorem wellDelimited_addChunk (v : Option String) (rest : List Chunk) :
    wellDelimited (addChunk v ++ rest) = wellDelimited rest := by
  cases v <;> rfl

theorem wellDelimited_contentChunks (c : MediaContent) (rest : List Chunk) :
    wellDelimited (contentChunks c ++ rest) = wellDelimited rest := by
  cases c <;> simp [contentChunks, List.append_assoc,
    wellDelimited_addChunk]

theorem wellDelimited_flatMap (cs : List MediaContent) (rest : List Chunk) :
    wellDelimited (cs.flatMap contentChunks ++ rest) = wellDelimited rest := by
  induction cs with
  | nil => rfl
  | cons c cs ih =>
    simp [List.flatMap_cons, List.append_assoc, wellDelimited_contentChunks,
      ih]

/-- C3 counterexample: on the minimal result with `author = None` and
`repost = None`, the code feeds only four delimiters (platform, url,
timestamp, content count) — the author-name and repost fields are skipped
entirely, delimiter included — whereas the stream the claim describes
(`claimedHashInput`, delimiting absent author and repost fields too)
carries six; the two streams differ. -/
theorem claim_C3_counterexample :
    countDelims (hashInput sampleBare) = 4 ∧
    countDelims (claimedHashInput sampleBare) = 6 ∧
    hashInput sampleBare ≠ claimedHashInput sampleBare := by
  refine ⟨rfl, rfl, fun h => ?_⟩
  have hlen := congrArg List.length h
  simp [hashInput, claimedHashInput, sampleBare, addChunk] at hlen

/-- C3 as amended: every value actually passed to the `add` helper is
followed by a delimiter byte even when the value is `None` (url,
timestamp, file name, graphics text/alt), so value chunks and delimiters
strictly alternate; but the author-name field is fed only when an author
is present and the repost field only when a repost is present, so the
number of delimiters is `hashedFieldCount` — which counts those two
fields only when present — rather than one per conceptual field. -/
theorem claim_C3_delimiters_amended (r : ParseResult) :
    wellDelimited (hashInput r) = true ∧
    countDelims (hashInput r) = hashedFieldCount r := by
  induction r using ParseResult.indRepost with
  | h pf au ti tx ts url cs ex rp ri ih =>
    constructor
    · cases au <;> cases rp
      all_goals
        simp only [hashInput, List.append_assoc, List.nil_append]
        repeat rw [wellDelimited_addChunk]
        rw [wellDelimited_flatMap]
        rfl
    · cases au <;> cases rp
      all_goals
        simp [hashInput, hashedFieldCount, countDelims_append,
          countDelims_addChunk, countDelims_flatMap, countDelims]
      all_goals omega

/-- Witness for C3 (amended): concrete evaluation on the pending sample
post. -/
theorem claim_C3_delimiters_amended_witness :
    wellDelimited (hashInput samplePendingPost) = true ∧
    countDelims (hashInput samplePendingPost) = 11 :=
  ⟨(claim_C3_delimiters_amended samplePendingPost).1,
    (claim_C3_delimiters_amended samplePendingPost).2.trans
      (show hashedFieldCount samplePendingPost = 11 from rfl)⟩

theorem accessorFilterSpec (p : MediaContent → Bool) (l : List MediaContent) :
    List.Sublist (l.filter p) l ∧
    (∀ c, c ∈ l.filter p ↔ c ∈ l ∧ p c = true) ∧
    (∀ c, p c = true → (l.filter p).count c = l.count c) :=
  ⟨List.filter_sublist l,
   fun _ => List.mem_filter,
   fun _ h => List.count_filter h⟩

/-- C9: each typed accessor returns exactly the elements of `contents`
whose variant matches the accessor's type — an ordered sublist of
`contents` (relative order preserved), all of whose members match, and
containing every matching occurrence of `contents` with its multiplicity.
The embedded accessors are pure functions of the result, so the
`contents` list itself is untouched. -/
theorem claim_C9_typed_accessors (r : ParseResult) :
    (List.Sublist (video_contents r) r.contents ∧
      (∀ c, c ∈ video_contents r ↔ c ∈ r.contents ∧ isVideoContent c = true) ∧
      (∀ c, isVideoContent c = true →
        (video_contents r).count c = r.contents.count c)) ∧
    (List.Sublist (img_contents r) r.contents ∧
      (∀ c, c ∈ img_contents r ↔ c ∈ r.contents ∧ isImageContent c = true) ∧
      (∀ c, isImageContent c = true →
        (img_contents r).count c = r.contents.count c)) ∧
    (List.Sublist (audio_contents r) r.contents ∧
      (∀ c, c ∈ audio_contents r ↔ c ∈ r.contents ∧ isAudioContent c = true) ∧
      (∀ c, isAudioContent c = true →
        (audio_contents r).count c = r.contents.count c)) ∧
    (List.Sublist (file_contents r) r.contents ∧
      (∀ c, c ∈ file_contents r ↔ c ∈ r.contents ∧ isFileContent c = true) ∧
      (∀ c, isFileContent c = true →
        (file_contents r).count c = r.contents.count c)) ∧
    (List.Sublist (dynamic_contents r) r.contents ∧
      (∀ c, c ∈ dynamic_contents r ↔ c ∈ r.contents ∧ isDynamicContent c = true) ∧
      (∀ c, isDynamicContent c = true →
        (dynamic_contents r).count c = r.contents.count c)) ∧
    (List.Sublist (graphics_contents r) r.contents ∧
      (∀ c, c ∈ graphics_contents r ↔ c ∈ r.contents ∧ isGraphicsContent c = true) ∧
      (∀ c, isGraphicsContent c = true →
        (graphics_contents r).count c = r.contents.count c)) :=
  ⟨accessorFilterSpec isVideoContent r.contents,
   accessorFilterSpec isImageContent r.contents,
   accessorFilterSpec isAudioContent r.contents,
   accessorFilterSpec isFileContent r.contents,
   accessorFilterSpec isDynamicContent r.contents,
   accessorFilterSpec isGraphicsContent r.contents⟩

/-- Witness for C9: on the concrete pending sample, the video accessor
retains the video item of `contents`. -/
theorem claim_C9_witness :
    MediaContent.video (.task "video-fetch") (some (.task "cover-fetch")) 12 ∈
      video_contents samplePendingPost :=
  ((claim_C9_typed_accessors samplePendingPost).1.2.1 _).mpr
    ⟨by decide, rfl⟩

/-- C8: a media reference is `Immediate` (a path) or `Pending` (a task
handle); `get_path` on an `Immediate` reference returns the value without
suspending and leaves it untouched; on a `Pending` reference it suspends
once, stores the resolved path in place, and every subsequent call
returns the identical resolved value without suspending again; the field
is always `Immediate` after a call, so the transition happens at most
once and is never reversed.  The same holds for `get_cover_path` on the
optional cover field. -/
theorem claim_C8_resolvable_memoization :
    (∀ p f, get_path (.path p) f = (p, .path p, false)) ∧
    (∀ h f, get_path (.task h) f = (f h, .path (f h), true)) ∧
    (∀ s f, ∃ q, (get_path s f).2.1 = .path q) ∧
    (∀ s f, get_path (get_path s f).2.1 f =
      ((get_path s f).1, (get_path s f).2.1, false)) ∧
    (∀ f, get_cover_path none f = (none, none, false)) ∧
    (∀ p f, get_cover_path (some (.path p)) f =
      (some p, some (.path p), false)) ∧
    (∀ h f, get_cover_path (some (.task h)) f =
      (some (f h), some (.path (f h)), true)) ∧
    (∀ co f, get_cover_path (get_cover_path co f).2.1 f =
      ((get_cover_path co f).1, (get_cover_path co f).2.1, false)) := by
  refine ⟨fun p f => rfl, fun h f => rfl, fun s f => ?_, fun s f => ?_,
    fun f => rfl, fun p f => rfl, fun h f => rfl, fun co f => ?_⟩
  · cases s <;> exact ⟨_, rfl⟩
  · cases s <;> rfl
  · rcases co with _ | pt
    · rfl
    · cases pt <;> rfl

/-- C5: for every decoded video payload, a non-empty image-url set
produces exactly one image content per url in source order — and nothing
else, so a simultaneously present video URL is ignored — while a video
content entry (with the payload's lazy cover reference and numeric
duration) is produced only when the image-url set is empty. -/
theorem claim_C5_payload_mutual_exclusivity (d : VideoData) :
    (d.image_urls ≠ [] →
      parse_video_contents d =
        d.image_urls.map (fun u => MediaContent.image (PathTask.task u)) ∧
      ∀ c ∈ parse_video_contents d, isImageContent c = true) ∧
    (∀ vu, d.image_urls = [] → d.video_url = some vu → vu ≠ "" →
      parse_video_contents d =
        [MediaContent.video (PathTask.task vu)
          (d.cover_url.map PathTask.task) (d.duration.getD 0)]) ∧
    (∀ c, c ∈ parse_video_contents d → isVideoContent c = true →
      d.image_urls = []) := by
  refine ⟨fun himg => ⟨?_, ?_⟩, fun vu hemp hvu hne => ?_, fun c hc hv => ?_⟩
  · simp [parse_video_contents, himg, create_image_contents]
  · intro c hc
    simp only [parse_video_contents, if_pos himg, create_image_contents,
      List.mem_map] at hc
    obtain ⟨u, _, rfl⟩ := hc
    rfl
  · simp [parse_video_contents, hemp, truthyStr, hvu, hne,
      create_video_content]
  · by_contra himg
    simp only [parse_video_contents, if_pos himg, create_image_contents,
      List.mem_map] at hc
    obtain ⟨u, _, rfl⟩ := hc
    simp [isVideoContent] at hv

/-- Witness for C5: on a payload with both images and a video URL the
contents are the two images only; on a video-only payload, the single
video entry with cover and duration. -/
theorem claim_C5_witness :
    parse_video_contents payloadWithImagesAndVideo =
      [MediaContent.image (PathTask.task "u1"),
       MediaContent.image (PathTask.task "u2")] ∧
    parse_video_contents payloadWithVideoOnly =
      [MediaContent.video (PathTask.task "vid-url")
        (some (PathTask.task "cover-url")) 30] :=
  ⟨((claim_C5_payload_mutual_exclusivity payloadWithImagesAndVideo).1
      (by decide)).1,
   (claim_C5_payload_mutual_exclusivity payloadWithVideoOnly).2.1
     "vid-url" rfl rfl (by decide)⟩

/-- C7: for a canonical (non-slides) douyin link, `_parse_douyin` tries
the m.douyin endpoint then the iesdouyin endpoint, in that order; a
recoverable (`ParseException`) failure on the first moves to the second
rather than aborting; if either endpoint succeeds the parse succeeds with
that endpoint's data; exhausting both raises the upstream-unavailable
`ParseException`. -/
theorem claim_C7_mirror_fallback (ty vid : String)
    (fetch : String → Except String ParseResult)
    (slidesResult : Except String ParseResult) (hty : ty ≠ "slides") :
    (∀ r, fetch (build_m_douyin_url ty vid) = .ok r →
      parse_douyin ty vid fetch slidesResult = .ok r) ∧
    (∀ e r, fetch (build_m_douyin_url ty vid) = .error e →
      fetch (build_iesdouyin_url ty vid) = .ok r →
      parse_douyin ty vid fetch slidesResult = .ok r) ∧
    (∀ e1 e2, fetch (build_m_douyin_url ty vid) = .error e1 →
      fetch (build_iesdouyin_url ty vid) = .error e2 →
      parse_douyin ty vid fetch slidesResult = .error mirrorsExhaustedMsg) := by
  refine ⟨fun r h1 => ?_, fun e r h1 h2 => ?_, fun e1 e2 h1 h2 => ?_⟩
  · simp [parse_douyin, hty, tryMirrors, h1]
  · simp [parse_douyin, hty, tryMirrors, h1, h2]
  · simp [parse_douyin, hty, tryMirrors, h1, h2]

/-- Witness for C7: with the m.douyin mirror failing recoverably and the
iesdouyin mirror succeeding, the overall parse succeeds with the second
mirror's data. -/
theorem claim_C7_witness :
    parse_douyin "video" "1" secondMirrorFetch (.error "unused") =
      .ok sampleBare :=
  (claim_C7_mirror_fallback "video" "1" secondMirrorFetch (.error "unused")
      (by decide)).2.1 "status: 404" sampleBare rfl rfl

/-- C6 counterexample: a response whose status is redirect-class (302)
and which does carry a `Location` target — equal to the requested URL —
is not dispatched to the registry as the claim's "otherwise" branch
requires: `parse_with_redirect` fails with the unresolved-redirect
`ParseException`. -/
theorem claim_C6_counterexample :
    selfRedirectResp.status ∈ redirectStatuses ∧
    selfRedirectResp.location = some "https://v.douyin.com/abc" ∧
    (parse_with_redirect douyinRegistry emptyDouyinState
        "https://v.douyin.com/abc" selfRedirectResp).2 =
      .failed ("无法重定向 URL: " ++ "https://v.douyin.com/abc") := by
  refine ⟨by decide, rfl, rfl⟩

/-- C6 as amended: the resolver issues one GET without following
redirects; if the status is not redirect-class (301, 302, 303, 307, 308)
or no `Location` target is present, the parse fails with the
unresolved-redirect `ParseException`; a `Location` equal to the requested
URL also fails the same way; otherwise (redirect-class status with a
`Location` differing from the requested URL) the registry match is re-run
against the target URL and dispatch recurses to the matching handler. -/
theorem claim_C6_redirect_amended (registry : List (String × Pattern))
    (s : DouyinState) (url : String) (resp : HttpResponse) :
    (resp.status ∉ redirectStatuses ∨ resp.location = none ∨
        resp.location = some url →
      (parse_with_redirect registry s url resp).2 =
        .failed ("无法重定向 URL: " ++ url)) ∧
    (∀ t, resp.status ∈ redirectStatuses → resp.location = some t →
      t ≠ url →
      (parse_with_redirect registry s url resp).2 =
        match matchText registry t with
        | some (kw, m) => .dispatched kw m
        | none => .failed "no registry entry matches the redirect target") := by
  constructor
  · intro hnr
    rcases hnr with h | h | h <;> simp [parse_with_redirect, h]
  · intro t hst hloc hne
    simp only [parse_with_redirect, hloc, if_pos hst, Option.getD_some]
    rw [if_neg hne]
    cases hm : matchText registry t with
    | none => simp
    | some km => cases km with
      | mk kw m => simp

/-- Witness for C6 (amended): a 302 response pointing at a canonical
iesdouyin share URL is re-matched by the registry and dispatched to the
iesdouyin handler. -/
theorem claim_C6_witness :
    (parse_with_redirect douyinRegistry emptyDouyinState
        "https://v.douyin.com/abc" goodRedirectResp).2 =
      .dispatched "iesdouyin" "iesdouyin.com/share/video/123" := by
  have h := (claim_C6_redirect_amended douyinRegistry emptyDouyinState
    "https://v.douyin.com/abc" goodRedirectResp).2
    "https://www.iesdouyin.com/share/video/123" (by decide) rfl (by decide)
  rw [h]
  rfl

theorem mem_insertByKwLen (x e : String × Pattern)
    (l : List (String × Pattern)) :
    e ∈ insertByKwLen x l ↔ e = x ∨ e ∈ l := by
  induction l with
  | nil => simp [insertByKwLen]
  | cons y ys ih =>
    by_cases h : x.1.length < y.1.length
    · simp only [insertByKwLen, if_pos h, List.mem_cons, ih]
      tauto
    · simp only [insertByKwLen, if_neg h, List.mem_cons]

theorem sorted_insertByKwLen (x : String × Pattern)
    (l : List (String × Pattern))
    (h : l.Pairwise (fun a b => b.1.length ≤ a.1.length)) :
    (insertByKwLen x l).Pairwise (fun a b => b.1.length ≤ a.1.length) := by
  induction l with
  | nil => simp [insertByKwLen]
  | cons y ys ih =>
    rcases List.pairwise_cons.mp h with ⟨hy, hys⟩
    by_cases hx : x.1.length < y.1.length
    · rw [insertByKwLen, if_pos hx]
      refine List.pairwise_cons.mpr ⟨?_, ih hys⟩
      intro b hb
      rcases (mem_insertByKwLen x b ys).mp hb with rfl | hbys
      · exact Nat.le_of_lt hx
      · exact hy b hbys
    · rw [insertByKwLen, if_neg hx]
      refine List.pairwise_cons.mpr ⟨?_, h⟩
      intro b hb
      rcases List.mem_cons.mp hb with rfl | hbys
      · exact Nat.le_of_not_lt hx
      · exact Nat.le_trans (hy b hbys) (Nat.le_of_not_lt hx)

theorem buildKeyPatternList_sorted (bindings : List (String × Pattern)) :
    (buildKeyPatternList bindings).Pairwise
      (fun a b => b.1.length ≤ a.1.length) := by
  induction bindings with
  | nil => simp [buildKeyPatternList]
  | cons x xs ih =>
    exact sorted_insertByKwLen x (buildKeyPatternList xs) ih

theorem matchText_some_iff (l : List (String × Pattern)) (text kw m : String) :
    matchText l text = some (kw, m) ↔
      ∃ l1 p l2, l = l1 ++ (kw, p) :: l2 ∧ kwInText kw text = true ∧
        p.search text = some m ∧ ∀ e ∈ l1, ¬ entryPasses text e := by
  induction l with
  | nil =>
    constructor
    · intro h
      simp [matchText] at h
    · rintro ⟨l1, p, l2, hl, -⟩
      exact absurd hl (by simp)
  | cons y ys ih =>
    obtain ⟨ykw, ypat⟩ := y
    by_cases hin : kwInText ykw text = true
    · cases hs : ypat.search text with
      | some m0 =>
        constructor
        · intro h
          simp only [matchText, if_pos hin, hs] at h
          obtain ⟨rfl, rfl⟩ := Prod.mk.inj (Option.some.inj h)
          exact ⟨[], ypat, ys, rfl, hin, hs, by simp⟩
        · rintro ⟨l1, p, l2, hl, hkw, hsp, hfail⟩
          cases l1 with
          | nil =>
            obtain ⟨h1, h2⟩ := List.cons.inj hl
            obtain ⟨rfl, rfl⟩ := Prod.mk.inj h1
            rw [hs] at hsp
            obtain rfl := Option.some.inj hsp
            simp only [matchText, if_pos hin, hs]
          | cons e l1t =>
            obtain ⟨h1, h2⟩ := List.cons.inj hl
            subst h1
            exact absurd ⟨hin, by simp [hs]⟩
              (hfail _ (List.mem_cons_self _ _))
      | none =>
        constructor
        · intro h
          simp only [matchText, if_pos hin, hs] at h
          obtain ⟨l1, p, l2, hl, hkw, hsp, hfail⟩ := ih.mp h
          refine ⟨(ykw, ypat) :: l1, p, l2, by rw [hl]; rfl, hkw, hsp, ?_⟩
          intro e he
          rcases List.mem_cons.mp he with rfl | he'
          · intro hpass
            have h2' := hpass.2
            rw [hs] at h2'
            exact absurd h2' (by simp)
          · exact hfail e he'
        · rintro ⟨l1, p, l2, hl, hkw, hsp, hfail⟩
          cases l1 with
          | nil =>
            obtain ⟨h1, h2⟩ := List.cons.inj hl
            obtain ⟨rfl, rfl⟩ := Prod.mk.inj h1
            rw [hs] at hsp
            exact absurd hsp (by simp)
          | cons e l1t =>
            obtain ⟨h1, h2⟩ := List.cons.inj hl
            simp only [matchText, if_pos hin, hs]
            exact ih.mpr ⟨l1t, p, l2, h2, hkw, hsp,
              fun e' he' => hfail e' (List.mem_cons_of_mem e he')⟩
    · constructor
      · intro h
        simp only [matchText, if_neg hin] at h
        obtain ⟨l1, p, l2, hl, hkw, hsp, hfail⟩ := ih.mp h
        refine ⟨(ykw, ypat) :: l1, p, l2, by rw [hl]; rfl, hkw, hsp, ?_⟩
        intro e he
        rcases List.mem_cons.mp he with rfl | he'
        · intro hpass
          exact hin hpass.1
        · exact hfail e he'
      · rintro ⟨l1, p, l2, hl, hkw, hsp, hfail⟩
        cases l1 with
        | nil =>
          obtain ⟨h1, h2⟩ := List.cons.inj hl
          obtain ⟨rfl, rfl⟩ := Prod.mk.inj h1
          exact absurd hkw hin
        | cons e l1t =>
          obtain ⟨h1, h2⟩ := List.cons.inj hl
          simp only [matchText, if_neg hin]
          exact ih.mpr ⟨l1t, p, l2, h2, hkw, hsp,
            fun e' he' => hfail e' (List.mem_cons_of_mem e he')⟩

theorem matchText_none_iff (l : List (String × Pattern)) (text : String) :
    matchText l text = none ↔ ∀ e ∈ l, ¬ entryPasses text e := by
  induction l with
  | nil => simp [matchText]
  | cons y ys ih =>
    obtain ⟨ykw, ypat⟩ := y
    by_cases hin : kwInText ykw text = true
    · cases hs : ypat.search text with
      | some m0 =>
        simp only [matchText, if_pos hin, hs]
        constructor
        · intro h
          exact absurd h (by simp)
        · intro h
          exact absurd ⟨hin, by simp [hs]⟩
            (h (ykw, ypat) (List.mem_cons_self _ _))
      | none =>
        simp only [matchText, if_pos hin, hs, ih]
        constructor
        · intro h e he
          rcases List.mem_cons.mp he with rfl | he'
          · intro hpass
            have h2' := hpass.2
            rw [hs] at h2'
            exact absurd h2' (by simp)
          · exact h e he'
        · intro h e he
          exact h e (List.mem_cons_of_mem _ he)
    · simp only [matchText, if_neg hin, ih]
      constructor
      · intro h e he
        rcases List.mem_cons.mp he with rfl | he'
        · intro hpass
          exact hin hpass.1
        · exact h e he'
      · intro h e he
        exact h e (List.mem_cons_of_mem _ he)

/-- C2: after build the (keyword, pattern) list is pairwise sorted by
descending keyword length; `matchText` returns exactly the first entry of
the ordered list whose keyword is a substring of the text and whose regex
search succeeds (every earlier entry fails one of the two checks, and no
later entry is consulted); when no entry passes both checks the result is
a normal no-match (`none`); and concretely, with both `douyin` and
`jx.douyin` registered, a text containing a jx.douyin.com link selects
the `jx.douyin` entry. -/
theorem claim_C2_registry_dispatch :
    (∀ bindings : List (String × Pattern),
      (buildKeyPatternList bindings).Pairwise
        (fun a b => b.1.length ≤ a.1.length)) ∧
    (∀ (l : List (String × Pattern)) (text kw m : String),
      matchText l text = some (kw, m) ↔
        ∃ l1 p l2, l = l1 ++ (kw, p) :: l2 ∧ kwInText kw text = true ∧
          p.search text = some m ∧ ∀ e ∈ l1, ¬ entryPasses text e) ∧
    (∀ (l : List (String × Pattern)) (text : String),
      matchText l text = none ↔ ∀ e ∈ l, ¬ entryPasses text e) ∧
    matchText douyinRegistry jxDemoText =
      some ("jx.douyin", "jx.douyin.com/abc123") :=
  ⟨buildKeyPatternList_sorted, matchText_some_iff, matchText_none_iff, rfl⟩

/-- Witness for C2: the no-match characterization applied to a concrete
text without any registered link. -/
theorem claim_C2_witness :
    matchText douyinRegistry "hello there" = none :=
  (claim_C2_registry_dispatch.2.2.1 douyinRegistry "hello there").mpr
    (by decide)

theorem orZ_none_right (x : Option String) : orZ x none = x := by
  cases x <;> rfl

theorem orZ_assoc (x y z : Option String) :
    orZ (orZ x y) z = orZ x (orZ y z) := by
  cases x <;> cases y <;> rfl

theorem lastParsedVal_cons (p : String × String)
    (ps : List (String × String)) (k : String) :
    lastParsedVal (p :: ps) k =
      orZ (lastParsedVal ps k) (if p.1 = k then some p.2 else none) := by
  cases h : lastParsedVal ps k <;> simp [lastParsedVal, h, orZ]

theorem lastParsedVal_append (a b : List (String × String)) (k : String) :
    lastParsedVal (a ++ b) k =
      orZ (lastParsedVal b k) (lastParsedVal a k) := by
  induction a with
  | nil => simp [lastParsedVal, orZ_none_right]
  | cons p a ih =>
    rw [List.cons_append, lastParsedVal_cons, ih, lastParsedVal_cons,
      orZ_assoc]

theorem findVal_none_of_any_false (d : List (String × String)) (k : String)
    (h : d.any (fun p => p.1 = k) = false) : findVal d k = none := by
  induction d with
  | nil => rfl
  | cons p ps ih =>
    simp only [List.any_cons, Bool.or_eq_false_iff] at h
    simp only [findVal, if_neg (by simpa using h.1)]
    exact ih h.2

theorem findVal_append (d e : List (String × String)) (k : String) :
    findVal (d ++ e) k =
      match findVal d k with
      | some v => some v
      | none => findVal e k := by
  induction d with
  | nil => rfl
  | cons p ps ih =>
    by_cases h : p.1 = k
    · simp [findVal, h]
    · simp [findVal, h, ih]

theorem findVal_upsertMap_self (d : List (String × String)) (k v : String)
    (h : d.any (fun p => p.1 = k) = true) :
    findVal (d.map (fun p => if p.1 = k then (p.1, v) else p)) k = some v := by
  induction d with
  | nil => simp at h
  | cons p ps ih =>
    by_cases hp : p.1 = k
    · simp [findVal, hp]
    · simp only [List.any_cons, Bool.or_eq_true] at h
      rcases h with h | h
      · exact absurd (by simpa using h) hp
      · simp only [List.map_cons, if_neg hp, findVal, if_neg hp]
        exact ih h

theorem findVal_upsertMap_other (d : List (String × String)) (k v k' : String)
    (h : k' ≠ k) :
    findVal (d.map (fun p => if p.1 = k then (p.1, v) else p)) k' =
      findVal d k' := by
  induction d with
  | nil => rfl
  | cons p ps ih =>
    by_cases hp : p.1 = k
    · have hpk : p.1 ≠ k' := fun hk' => h (hk'.symm.trans hp)
      simp only [List.map_cons, if_pos hp, findVal, if_neg hpk, ih]
    · simp only [List.map_cons, if_neg hp, findVal, ih]

theorem findVal_dictUpsert (d : List (String × String)) (k v k' : String) :
    findVal (dictUpsert d k v) k' =
      if k' = k then some v else findVal d k' := by
  by_cases hk : k' = k
  · subst hk
    rw [if_pos rfl]
    by_cases hany : d.any (fun p => p.1 = k') = true
    · rw [dictUpsert, if_pos hany]
      exact findVal_upsertMap_self d k' v hany
    · rw [dictUpsert, if_neg hany, findVal_append,
        findVal_none_of_any_false d k' (Bool.eq_false_iff.mpr hany)]
      simp [findVal]
  · rw [if_neg hk]
    by_cases hany : d.any (fun p => p.1 = k) = true
    · rw [dictUpsert, if_pos hany]
      exact findVal_upsertMap_other d k v k' hk
    · rw [dictUpsert, if_neg hany, findVal_append]
      cases h : findVal d k' with
      | some w => rfl
      | none => simp [findVal, Ne.symm hk]

theorem findVal_foldl_headers (hs : List String)
    (d : List (String × String)) (k : String) :
    findVal (hs.foldl addSetCookieHeader d) k =
      orZ (lastParsedVal (headerPairs hs) k) (findVal d k) := by
  induction hs generalizing d with
  | nil => simp [headerPairs, lastParsedVal, orZ]
  | cons sc hs ih =>
    rw [List.foldl_cons, ih]
    have hhp : headerPairs (sc :: hs) =
        (let c := pyStrip ((pySplitOn sc ';').headD "")
         if c ≠ "" ∧ hasEqSign c then
           match splitOnceEq c with
           | some (n, v) => [(pyStrip n, pyStrip v)]
           | none => []
         else []) ++ headerPairs hs := by
      simp [headerPairs]
    by_cases hc : pyStrip ((pySplitOn sc ';').headD "") ≠ "" ∧
        hasEqSign (pyStrip ((pySplitOn sc ';').headD "")) = true
    · cases hsp : splitOnceEq (pyStrip ((pySplitOn sc ';').headD "")) with
      | some nv =>
        obtain ⟨n, v⟩ := nv
        have hd : addSetCookieHeader d sc =
            dictUpsert d (pyStrip n) (pyStrip v) := by
          simp only [addSetCookieHeader, addCookieFragment, if_pos hc, hsp]
        rw [hd, hhp]
        simp only [if_pos hc, hsp]
        rw [lastParsedVal_append, orZ_assoc]
        congr 1
        rw [lastParsedVal_cons]
        simp only [lastParsedVal, orZ]
        by_cases hk : k = pyStrip n
        · rw [findVal_dictUpsert, if_pos hk, if_pos hk.symm]
        · rw [findVal_dictUpsert, if_neg hk,
            if_neg (fun h => hk h.symm)]
      | none =>
        have hd : addSetCookieHeader d sc = d := by
          simp only [addSetCookieHeader, addCookieFragment, if_pos hc, hsp]
        rw [hd, hhp]
        simp only [if_pos hc, hsp, List.nil_append]
    · have hd : addSetCookieHeader d sc = d := by
        simp only [addSetCookieHeader, addCookieFragment]
        rw [if_neg hc]
      rw [hd, hhp]
      rw [if_neg hc, List.nil_append]

theorem pyStrip_data (s : String) :
    (pyStrip s).data =
      List.rdropWhile Char.isWhitespace
        (s.data.dropWhile Char.isWhitespace) := rfl

theorem dropWhile_head_not_ws (l : List Char) (c : Char) (bs : List Char)
    (h : l.dropWhile Char.isWhitespace = c :: bs) :
    Char.isWhitespace c = false := by
  induction l with
  | nil => simp [List.dropWhile] at h
  | cons x xs ih =>
    rw [List.dropWhile_cons] at h
    by_cases hx : Char.isWhitespace x = true
    · rw [if_pos hx] at h
      exact ih h
    · rw [if_neg hx] at h
      obtain ⟨rfl, -⟩ := List.cons.inj h
      exact Bool.eq_false_iff.mpr hx

theorem dropWhile_rdrop_self (l : List Char) :
    (List.rdropWhile Char.isWhitespace
        (l.dropWhile Char.isWhitespace)).dropWhile Char.isWhitespace =
      List.rdropWhile Char.isWhitespace (l.dropWhile Char.isWhitespace) := by
  rcases hbe : List.rdropWhile Char.isWhitespace (l.dropWhile Char.isWhitespace)
    with _ | ⟨c, bs⟩
  · rfl
  · obtain ⟨t, ht⟩ := List.rdropWhile_prefix Char.isWhitespace
      (l.dropWhile Char.isWhitespace)
    rw [hbe] at ht
    have hc : Char.isWhitespace c = false := by
      refine dropWhile_head_not_ws l c (bs ++ t) ?_
      rw [← ht]
      rfl
    simp [List.dropWhile_cons, hc]

theorem pyStrip_idem (s : String) : pyStrip (pyStrip s) = pyStrip s := by
  have h : (pyStrip (pyStrip s)).data = (pyStrip s).data := by
    rw [pyStrip_data (pyStrip s), pyStrip_data s, dropWhile_rdrop_self s.data,
      List.rdropWhile_idempotent]
  cases hp1 : pyStrip (pyStrip s) with
  | mk d1 =>
    cases hp2 : pyStrip s with
    | mk d2 =>
      rw [hp1, hp2] at h
      simp only at h
      rw [h]

theorem dictUpsert_stripped (d : List (String × String)) (k v : String)
    (hd : ∀ q ∈ d, pyStrip q.1 = q.1 ∧ pyStrip q.2 = q.2)
    (hk : pyStrip k = k) (hv : pyStrip v = v) :
    ∀ q ∈ dictUpsert d k v, pyStrip q.1 = q.1 ∧ pyStrip q.2 = q.2 := by
  intro q hq
  rw [dictUpsert] at hq
  by_cases hany : d.any (fun p => p.1 = k) = true
  · rw [if_pos hany] at hq
    obtain ⟨q0, hq0, hfq⟩ := List.mem_map.mp hq
    by_cases h0 : q0.1 = k
    · rw [if_pos h0] at hfq
      rw [← hfq]
      exact ⟨(hd q0 hq0).1, hv⟩
    · rw [if_neg h0] at hfq
      rw [← hfq]
      exact hd q0 hq0
  · rw [if_neg hany] at hq
    rcases List.mem_append.mp hq with hq' | hq'
    · exact hd q hq'
    · rw [List.mem_singleton.mp hq']
      exact ⟨hk, hv⟩

theorem addCookieFragment_stripped (d : List (String × String))
    (frag : String)
    (hd : ∀ q ∈ d, pyStrip q.1 = q.1 ∧ pyStrip q.2 = q.2) :
    ∀ q ∈ addCookieFragment d frag,
      pyStrip q.1 = q.1 ∧ pyStrip q.2 = q.2 := by
  rw [addCookieFragment]
  by_cases hc : pyStrip frag ≠ "" ∧ hasEqSign (pyStrip frag) = true
  · rw [if_pos hc]
    cases hsp : splitOnceEq (pyStrip frag) with
    | some nv =>
      obtain ⟨n, v⟩ := nv
      exact dictUpsert_stripped d (pyStrip n) (pyStrip v) hd
        (pyStrip_idem n) (pyStrip_idem v)
    | none => exact hd
  · rw [if_neg hc]
    exact hd

theorem foldl_addCookieFragment_stripped (frags : List String)
    (d : List (String × String))
    (hd : ∀ q ∈ d, pyStrip q.1 = q.1 ∧ pyStrip q.2 = q.2) :
    ∀ q ∈ frags.foldl addCookieFragment d,
      pyStrip q.1 = q.1 ∧ pyStrip q.2 = q.2 := by
  induction frags generalizing d with
  | nil => exact hd
  | cons f frags ih =>
    rw [List.foldl_cons]
    exact ih _ (addCookieFragment_stripped d f hd)

theorem foldl_addSetCookieHeader_stripped (hs : List String)
    (d : List (String × String))
    (hd : ∀ q ∈ d, pyStrip q.1 = q.1 ∧ pyStrip q.2 = q.2) :
    ∀ q ∈ hs.foldl addSetCookieHeader d,
      pyStrip q.1 = q.1 ∧ pyStrip q.2 = q.2 := by
  induction hs generalizing d with
  | nil => exact hd
  | cons sc hs ih =>
    rw [List.foldl_cons]
    exact ih _ (addCookieFragment_stripped d _ hd)

theorem mergeCookiePairs_stripped (ck : String) (hs : List String) :
    ∀ q ∈ mergeCookiePairs ck hs,
      pyStrip q.1 = q.1 ∧ pyStrip q.2 = q.2 := by
  rw [mergeCookiePairs]
  refine foldl_addSetCookieHeader_stripped hs (parseExistingCookies ck) ?_
  rw [parseExistingCookies]
  by_cases hck : ck = ""
  · rw [if_pos hck]
    intro q hq
    simp at hq
  · rw [if_neg hck]
    exact foldl_addCookieFragment_stripped _ [] (by intro q hq; simp at hq)

theorem addCookieFragment_bad (d : List (String × String)) (f : String)
    (hbad : badFragment f) : addCookieFragment d f = d := by
  rw [addCookieFragment, if_neg]
  rintro ⟨h1, h2⟩
  rcases hbad with hb | hb
  · exact h1 hb
  · rw [hb] at h2
    cases h2

/-- C4 counterexample: existing cookie string `"abc"` (no `=`) and the
single directive `"xyz"` (no `=`) merge to the empty string, which
differs from the current one; the code persists it and replaces
`douyin_ck`, but — because `_set_cookies` ignores an empty cleaned
string — neither header profile receives the merged cookie string,
contradicting the claim that the merged string is applied to both
profiles whenever it differs. -/
theorem claim_C4_counterexample :
    mergeCookieString "abc" ["xyz"] = "" ∧
    mergeCookieString "abc" ["xyz"] ≠ "abc" ∧
    (update_cookies_from_response garbageCookieState ["xyz"]).douyin_ck = "" ∧
    (update_cookies_from_response garbageCookieState ["xyz"]).saved = [""] ∧
    (update_cookies_from_response garbageCookieState ["xyz"]).ios_cookie =
      none ∧
    (update_cookies_from_response garbageCookieState ["xyz"]).android_cookie =
      none := by
  refine ⟨rfl, by decide, rfl, rfl, rfl, rfl⟩

/-- C4 as amended: for every response with a non-empty list of Set-Cookie
directives, the directives are parsed into name-to-value pairs and merged
into the existing set — a directive name already present overwrites that
entry (the last directive with the name wins) and every other existing
entry is preserved; if the merged string equals the current one nothing
changes; if it differs, it replaces `douyin_ck` and is persisted, and the
cleaned merged string is applied to both header profiles provided it is
non-empty (an empty cleaned merged string leaves both header profiles
unchanged); persistence happens if and only if the merged string
differs. -/
theorem claim_C4_cookie_lifecycle_amended (s : DouyinState)
    (hs : List String) (hne : hs ≠ []) :
    (mergeCookieString s.douyin_ck hs = s.douyin_ck →
      update_cookies_from_response s hs = s) ∧
    (mergeCookieString s.douyin_ck hs ≠ s.douyin_ck →
      (update_cookies_from_response s hs).douyin_ck =
        mergeCookieString s.douyin_ck hs ∧
      (update_cookies_from_response s hs).saved =
        s.saved ++ [mergeCookieString s.douyin_ck hs] ∧
      (clean_cookie (mergeCookieString s.douyin_ck hs) ≠ "" →
        (update_cookies_from_response s hs).ios_cookie =
          some (clean_cookie (mergeCookieString s.douyin_ck hs)) ∧
        (update_cookies_from_response s hs).android_cookie =
          some (clean_cookie (mergeCookieString s.douyin_ck hs))) ∧
      (clean_cookie (mergeCookieString s.douyin_ck hs) = "" →
        (update_cookies_from_response s hs).ios_cookie = s.ios_cookie ∧
        (update_cookies_from_response s hs).android_cookie =
          s.android_cookie)) ∧
    (∀ k, findVal (mergeCookiePairs s.douyin_ck hs) k =
      orZ (lastParsedVal (headerPairs hs) k)
        (findVal (parseExistingCookies s.douyin_ck) k)) ∧
    ((update_cookies_from_response s hs).saved ≠ s.saved ↔
      mergeCookieString s.douyin_ck hs ≠ s.douyin_ck) := by
  refine ⟨fun heq => ?_, fun hdiff => ?_, fun k => ?_, ?_⟩
  · rw [update_cookies_from_response, if_neg hne, if_neg (not_not_intro heq)]
  · rw [update_cookies_from_response, if_neg hne, if_pos hdiff]
    rw [set_cookies]
    by_cases hclean : clean_cookie (mergeCookieString s.douyin_ck hs) = ""
    · rw [if_neg (not_not_intro hclean)]
      exact ⟨rfl, rfl, fun h => absurd hclean h, fun _ => ⟨rfl, rfl⟩⟩
    · rw [if_pos hclean]
      exact ⟨rfl, rfl, fun _ => ⟨rfl, rfl⟩, fun h => absurd h hclean⟩
  · rw [mergeCookiePairs]
    exact findVal_foldl_headers hs (parseExistingCookies s.douyin_ck) k
  · constructor
    · intro hsaved
      intro heq
      apply hsaved
      rw [update_cookies_from_response, if_neg hne,
        if_neg (not_not_intro heq)]
    · intro hdiff
      rw [update_cookies_from_response, if_neg hne, if_pos hdiff]
      rw [set_cookies]
      by_cases hclean : clean_cookie (mergeCookieString s.douyin_ck hs) = ""
      · rw [if_neg (not_not_intro hclean)]
        intro h
        have := congrArg List.length h
        simp at this
      · rw [if_pos hclean]
        intro h
        have := congrArg List.length h
        simp at this

/-- Witness for C4 (amended): a concrete state and response; the
directive `b=3` overwrites the existing `b`, `a` is preserved, `c=4` is
appended, the merged string is applied to both profiles and persisted. -/
theorem claim_C4_witness :
    (update_cookies_from_response ⟨"a=1; b=2", none, none, []⟩
        ["b=3; Path=/", "c=4"]).douyin_ck = "a=1; b=3; c=4" ∧
    (update_cookies_from_response ⟨"a=1; b=2", none, none, []⟩
        ["b=3; Path=/", "c=4"]).ios_cookie = some "a=1; b=3; c=4" ∧
    (update_cookies_from_response ⟨"a=1; b=2", none, none, []⟩
        ["b=3; Path=/", "c=4"]).android_cookie = some "a=1; b=3; c=4" ∧
    (update_cookies_from_response ⟨"a=1; b=2", none, none, []⟩
        ["b=3; Path=/", "c=4"]).saved = ["a=1; b=3; c=4"] ∧
    findVal (mergeCookiePairs "a=1; b=2" ["b=3; Path=/", "c=4"]) "b" =
      some "3" ∧
    findVal (mergeCookiePairs "a=1; b=2" ["b=3; Path=/", "c=4"]) "a" =
      some "1" := by
  have h := claim_C4_cookie_lifecycle_amended ⟨"a=1; b=2", none, none, []⟩
    ["b=3; Path=/", "c=4"] (by decide)
  have hdiff : mergeCookieString "a=1; b=2" ["b=3; Path=/", "c=4"] ≠
      "a=1; b=2" := by decide
  have h2 := h.2.1 hdiff
  have hmerge : mergeCookieString "a=1; b=2" ["b=3; Path=/", "c=4"] =
      "a=1; b=3; c=4" := rfl
  have hclean : clean_cookie
      (mergeCookieString "a=1; b=2" ["b=3; Path=/", "c=4"]) =
      "a=1; b=3; c=4" := rfl
  have hio := h2.2.2.1 (by rw [hclean]; decide)
  refine ⟨by rw [h2.1, hmerge], by rw [hio.1, hclean],
    by rw [hio.2, hclean], by rw [h2.2.1, hmerge]; rfl,
    by rw [h.2.2.1 "b"]; rfl, by rw [h.2.2.1 "a"]; rfl⟩

/-- C10: during the cookie merge, every fragment of the existing cookie
string and every directive whose first segment is empty after stripping
or lacks an `=` is silently dropped (it leaves the dict untouched), and
the merged cookie string is exactly the `"; "`-join of `name=value`
pairs whose names and values are stripped of surrounding whitespace. -/
theorem claim_C10_merge_drops_malformed (ck : String) (hs : List String) :
    (∀ p ∈ mergeCookiePairs ck hs,
      pyStrip p.1 = p.1 ∧ pyStrip p.2 = p.2) ∧
    mergeCookieString ck hs =
      String.intercalate "; "
        ((mergeCookiePairs ck hs).map (fun p => p.1 ++ "=" ++ p.2)) ∧
    (∀ d f, badFragment f → addCookieFragment d f = d) ∧
    (∀ d sc, badDirective sc → addSetCookieHeader d sc = d) :=
  ⟨mergeCookiePairs_stripped ck hs, rfl,
   fun d f hbad => addCookieFragment_bad d f hbad,
   fun d sc hbad =>
     addCookieFragment_bad d ((pySplitOn sc ';').headD "") hbad⟩

/-- Witness for C10: concrete bad fragments are dropped and a concrete
merged pair is stripped. -/
theorem claim_C10_witness :
    addCookieFragment [("a", "1")] "nov" = [("a", "1")] ∧
    addSetCookieHeader [("a", "1")] "bad; Secure" = [("a", "1")] ∧
    (pyStrip "a" = "a" ∧ pyStrip "1" = "1") :=
  ⟨(claim_C10_merge_drops_malformed "" []).2.2.1 [("a", "1")] "nov"
      (Or.inr rfl),
   (claim_C10_merge_drops_malformed "" []).2.2.2 [("a", "1")] "bad; Secure"
      (Or.inr rfl),
   (claim_C10_merge_drops_malformed " a = 1 " []).1 ("a", "1") (by decide)⟩

end AstrbotParser
